import Mathlib

/-!
Verification of the conversation-context window and the streaming response
state machine of the `jutella` chatbot client.

The Rust source is embedded shallowly:
* `Context` models `src/chat_client/context.rs` (`Context` struct, `with_request`,
  `push`, `keep_recent`).  The `tiktoken_rs::CoreBPE` tokenizer is an external
  capability; it is embedded as an abstract token-counting function
  `String → Nat` held in the same `Option` slot as in the source.  Rust `usize`
  is idealized as `Nat` (`usize::MAX` used as "no bound" becomes the absent
  bound).
* The message types model `src/chat_client/openai_api/message.rs`.
* The streaming machine models `src/chat_client/stream.rs`
  (`State`, `State::finalize`, `CompletionStream::poll_next`).  The JSON decode
  layer (`parse_stream_chunk`) is a pure function of the raw payload string;
  events are therefore embedded at the granularity of its result: a payload is
  either the `"[DONE]"` sentinel, or classified by its decode outcome
  (a `Delta`, a benign ignore, or a decode error).
* `request_completion` models `src/chat_client/client.rs`.
-/

namespace Jutella

/-! ## Messages (`openai_api/message.rs`) -/

/-- A JSON value whose structure the core never inspects
(`serde_json::value::Value` in `tool_calls` etc.). -/
inductive JsonValue where
  | abstractVal
deriving DecidableEq, Repr

/-- `Role` from `message.rs`. -/
inductive Role where
  | system
  | user
  | assistant
  | tool
deriving DecidableEq, Repr

/-- `SystemMessage` from `message.rs`. -/
structure SystemMessage where
  content : String
  name : Option String
deriving DecidableEq, Repr

/-- `SystemMessage::new`. -/
def SystemMessage.new (content : String) : SystemMessage :=
  { content := content, name := none }

/-- `UserMessage` from `message.rs`. -/
structure UserMessage where
  content : String
  name : Option String
deriving DecidableEq, Repr

/-- `UserMessage::new`. -/
def UserMessage.new (content : String) : UserMessage :=
  { content := content, name := none }

/-- `AssistantMessage` from `message.rs`.  The `reasoning` field is read by
`client.rs` (`assistant_message.reasoning`) but absent from the bundled
`message.rs`; modelled from the spec: `Completion = { text, reasoning?, usage }`. -/
structure AssistantMessage where
  content : Option String
  name : Option String
  refusal : Option String
  tool_calls : Option JsonValue
  reasoning : Option String
deriving DecidableEq, Repr

/-- `AssistantMessage::new`. -/
def AssistantMessage.new (content : String) : AssistantMessage :=
  { content := some content, name := none, refusal := none, tool_calls := none,
    reasoning := none }

/-- `ToolMessage` from `message.rs`. -/
structure ToolMessage where
  content : String
  tool_call_id : String
deriving DecidableEq, Repr

/-- `Message` from `message.rs`. -/
inductive Message where
  | system (m : SystemMessage)
  | user (m : UserMessage)
  | assistant (m : AssistantMessage)
  | tool (m : ToolMessage)
deriving DecidableEq, Repr

/-! ## Conversation context (`context.rs`) -/

/-- `Context` from `context.rs`.  The tokenizer is the opaque-count capability
`count_tokens : String → Nat`; `encode_with_special_tokens(m).len()` in the
source is `numTokens m` here. -/
structure Context where
  system_message : Option String
  conversation : List (String × String)
  tokenizer : Option (String → Nat)
  min_history_tokens : Option Nat
  max_history_tokens : Option Nat

/-- `Context::new`. -/
def Context.new (system_message : Option String) : Context :=
  { system_message := system_message, conversation := [], tokenizer := none,
    min_history_tokens := none, max_history_tokens := none }

/-- `Context::new_with_rolling_window`. -/
def Context.new_with_rolling_window (system_message : Option String)
    (tokenizer : String → Nat) (min_history_tokens max_history_tokens : Option Nat) :
    Context :=
  { system_message := system_message, conversation := [], tokenizer := some tokenizer,
    min_history_tokens := min_history_tokens, max_history_tokens := max_history_tokens }

/-- `Context::with_request`: system message (if any), then the user/assistant
pair of every retained turn, then the new user message. -/
def Context.with_request (ctx : Context) (request : String) : List Message :=
  (ctx.system_message.toList.map fun system_message =>
      Message.system (SystemMessage.new system_message))
    ++ (ctx.conversation.flatMap fun transaction =>
        [Message.user (UserMessage.new transaction.1),
         Message.assistant (AssistantMessage.new transaction.2)])
    ++ [Message.user (UserMessage.new request)]

/-- The `iter_accumulate::IterAccumulate::accumulate` adapter specialised to the
closure `|(_, acc), x| (acc, acc + x)` used in `keep_recent`: starting from the
initial state, each input element produces (and yields) the pair
`(running total before it, running total after it)`. -/
def accumulateCosts (init : Nat × Nat) : List Nat → List (Nat × Nat)
  | [] => []
  | x :: xs =>
    let s := (init.2, init.2 + x)
    s :: accumulateCosts s xs

/-- `prev < min_tokens` with `min_tokens = min_history_tokens.unwrap_or(usize::MAX)`:
with `usize` idealized as `Nat`, an absent bound is never reached. -/
def belowMin : Option Nat → Nat → Bool
  | none, _ => true
  | some m, prev => prev < m

/-- `current <= max_tokens` with `max_tokens = max_history_tokens.unwrap_or(usize::MAX)`. -/
def withinMax : Option Nat → Nat → Bool
  | none, _ => true
  | some m, current => current ≤ m

/-- The `map_while(|(prev, current)| (prev < min_tokens).then_some(current))`
stage of `keep_recent`. -/
def mapWhileBelowMin (minTokens : Option Nat) : List (Nat × Nat) → List Nat
  | [] => []
  | (prev, current) :: rest =>
    if belowMin minTokens prev then current :: mapWhileBelowMin minTokens rest
    else []

/-- `Context::keep_recent`: discard old records to keep the context within the
limits.  Mirrors the source pipeline: reverse the conversation (newest first),
map each transaction to its token cost, `accumulate` the running totals
starting from the system-message tokens, `map_while` under the min bound,
`take_while` under the max bound, and keep that many newest transactions. -/
def Context.keep_recent (ctx : Context) : Context :=
  match ctx.tokenizer with
  | none => ctx
  | some numTokens =>
    let system_tokens := (ctx.system_message.map numTokens).getD 0
    let keep :=
      ((mapWhileBelowMin ctx.min_history_tokens
          (accumulateCosts (0, system_tokens)
            (ctx.conversation.reverse.map fun transaction =>
              numTokens transaction.1 + numTokens transaction.2))).takeWhile
        (withinMax ctx.max_history_tokens)).length
    let discard := ctx.conversation.length - keep
    { ctx with conversation := ctx.conversation.drop discard }

/-- `Context::push`: append the new request/response pair, then trim. -/
def Context.push (ctx : Context) (request response : String) : Context :=
  Context.keep_recent { ctx with conversation := ctx.conversation ++ [(request, response)] }

/-! ## Streaming (`stream.rs`) -/

/-- `TokenUsage` from `client.rs`. -/
structure TokenUsage where
  tokens_in : Nat
  tokens_in_cached : Option Nat
  tokens_out : Nat
  tokens_reasoning : Option Nat
deriving DecidableEq, Repr

/-- `Delta` from `stream.rs`: a chat completion delta event. -/
inductive Delta where
  | reasoning (s : String)
  | content (s : String)
  | usage (u : TokenUsage)
deriving DecidableEq, Repr

/-- The subset of `error.rs`'s `Error` reachable from the embedded paths.
`streamError` stands for `Error::StreamError` (any transport error);
`deltaJsonError` for `Error::DeltaJsonError` (any JSON decode failure). -/
inductive Error where
  | noChoices
  | invalidMessage (expected got : Role)
  | noContent
  | refusal (s : String)
  | streamError
  | deltaJsonError
  | unexpectedStreamEvent (s : String)
deriving DecidableEq, Repr

/-- `State` from `stream.rs`.  `receivingContent`'s argument is the source's
`partial_response` buffer. -/
inductive State where
  | waitingForData
  | receivingReasoning
  | receivingContent (partialResponse : String)
  | waitingForDone
  | waitingForEndOfStream
  | terminated
deriving DecidableEq, Repr

/-- `State::finalize`: replace the state by `newState` and hand back the
accumulated response, which is `some` exactly when the old state was
`ReceivingContent` with a non-empty buffer. -/
def State.finalize (s : State) (newState : State) : State × Option String :=
  match s with
  | .receivingContent partialResponse =>
    (newState, if partialResponse.isEmpty then none else some partialResponse)
  | _ => (newState, none)

/-- The decode-level classification of one raw non-error transport event.
`parse_stream_chunk` is a pure function of the payload string, and the
`"[DONE]"` sentinel is matched before decoding; each payload string therefore
falls in exactly one of these classes.
* `done` — the payload equals the sentinel `"[DONE]"`;
* `delta d` — `parse_stream_chunk` returns `Ok(Some(d))`;
* `ignored` — `parse_stream_chunk` returns `Ok(None)` (a finish-reason marker);
* `decodeError e` — `parse_stream_chunk` returns `Err(e)`. -/
inductive Payload where
  | done
  | delta (d : Delta)
  | ignored
  | decodeError (e : Error)
deriving DecidableEq, Repr

/-- One item of the underlying transport event sequence
(`Result<Event, EventStreamError<reqwest::Error>>`). -/
inductive RawEvent where
  | ok (p : Payload)
  | err
deriving DecidableEq, Repr

/-- One result of `CompletionStream::poll_next` once it is `Ready`
(the event sequence is finite and always ready, so `Pending` never occurs). -/
inductive PollResult where
  | item (d : Delta)
  | errItem (e : Error)
  | endOfStream
deriving DecidableEq, Repr

/-- `CompletionStream` from `stream.rs` (the `&mut ChatClient` is represented
by its conversation `Context`, the only part the stream touches, via
`ChatClient::extend_context`). -/
structure CompletionStream where
  context : Context
  events : List RawEvent
  state : State
  request : String

/-- `if let Some(response) = state.finalize(..) { client.extend_context(..) }`:
push the flushed response, if any, into the context. -/
def flushInto (context : Context) (request : String) : Option String → Context
  | some response => context.push request response
  | none => context

/-- The body of the `loop` in `CompletionStream::poll_next`, recursing on the
remaining events where the source says `continue`.  Returns the updated
context and state, the events not yet consumed, and the `Poll::Ready` result. -/
def pollLoop (request : String) :
    Context → State → List RawEvent → Context × State × List RawEvent × PollResult
  | context, state, [] =>
    -- underlying stream returned `None`: flush and terminate cleanly
    let fr := state.finalize .terminated
    (flushInto context request fr.2, fr.1, [], .endOfStream)
  | context, state, .err :: rest =>
    -- transport error: flush and surface the error
    let fr := state.finalize .terminated
    (flushInto context request fr.2, fr.1, rest, .errItem .streamError)
  | context, state, .ok .done :: rest =>
    -- the `"[DONE]"` sentinel: flush, wait for end of stream, `continue`
    let fr := state.finalize .waitingForEndOfStream
    pollLoop request (flushInto context request fr.2) fr.1 rest
  | context, state, .ok .ignored :: rest =>
    -- `parse_stream_chunk` returned `Ok(None)`: `continue`
    pollLoop request context state rest
  | context, state, .ok (.decodeError e) :: rest =>
    -- decode error: flush and surface the error
    let fr := state.finalize .terminated
    (flushInto context request fr.2, fr.1, rest, .errItem e)
  | context, state, .ok (.delta d) :: rest =>
    match state, d with
    | .waitingForData, .reasoning s | .receivingReasoning, .reasoning s =>
      (context, .receivingReasoning, rest, .item (.reasoning s))
    | .waitingForData, .content s | .receivingReasoning, .content s =>
      (context, .receivingContent s, rest, .item (.content s))
    | .waitingForData, .usage u | .receivingReasoning, .usage u =>
      (context, .waitingForDone, rest, .item (.usage u))
    | .receivingContent partialResponse, .reasoning _ =>
      -- protocol violation: flush and terminate
      let fr := (State.receivingContent partialResponse).finalize .terminated
      (flushInto context request fr.2, fr.1, rest,
        .errItem (.unexpectedStreamEvent "reasoning after content"))
    | .receivingContent partialResponse, .content s =>
      (context, .receivingContent (partialResponse ++ s), rest, .item (.content s))
    | .receivingContent partialResponse, .usage u =>
      let fr := (State.receivingContent partialResponse).finalize .waitingForDone
      (flushInto context request fr.2, fr.1, rest, .item (.usage u))
    | .waitingForDone, .reasoning _ =>
      (context, .terminated, rest, .errItem (.unexpectedStreamEvent "reasoning after usage"))
    | .waitingForDone, .content _ =>
      (context, .terminated, rest, .errItem (.unexpectedStreamEvent "content after usage"))
    | .waitingForDone, .usage _ =>
      (context, .terminated, rest, .errItem (.unexpectedStreamEvent "duplicate usage"))
    | .waitingForEndOfStream, _ =>
      -- a decoded event after `"[DONE]"` is discarded and the stream ends
      (context, .terminated, rest, .endOfStream)
    | .terminated, _ =>
      -- unreachable in the source: the terminated state is handled by the
      -- early return in `poll_next`
      (context, .terminated, rest, .endOfStream)

/-- `CompletionStream::poll_next`. -/
def CompletionStream.poll_next (s : CompletionStream) : CompletionStream × PollResult :=
  match s.state with
  | .terminated => (s, .endOfStream)
  | _ =>
    let l := pollLoop s.request s.context s.state s.events
    ({ s with context := l.1, state := l.2.1, events := l.2.2.1 }, l.2.2.2)

/-- Drive `poll_next` repeatedly (with fuel) until it reports end of stream,
collecting every returned item including the final `endOfStream`. -/
def CompletionStream.drive : Nat → CompletionStream → CompletionStream × List PollResult
  | 0, s => (s, [])
  | fuel + 1, s =>
    let pr := s.poll_next
    match pr.2 with
    | .endOfStream => (pr.1, [.endOfStream])
    | r =>
      let d := CompletionStream.drive fuel pr.1
      (d.1, r :: d.2)

/-- Consume the whole stream: every `poll_next` that yields an item consumes at
least one underlying event, so `events.length + 1` polls always reach the end. -/
def CompletionStream.run (s : CompletionStream) : CompletionStream × List PollResult :=
  CompletionStream.drive (s.events.length + 1) s

/-- `CompletionStream::new`: the machine starts in `WaitingForData`. -/
def CompletionStream.new (context : Context) (events : List RawEvent) (request : String) :
    CompletionStream :=
  { context := context, events := events, state := .waitingForData, request := request }

/-! ## Non-streaming completion (`client.rs`, `openai_api/chat_completions.rs`) -/

/-- `PromptTokensDetails`: the bundled `chat_completions.rs` keeps
`prompt_tokens_details` as an untyped JSON value; `client.rs` reads
`cached_tokens` from it, so that field is modelled. -/
structure PromptTokensDetails where
  cached_tokens : Option Nat
deriving DecidableEq, Repr

/-- `CompletionTokensDetails`: as above, `client.rs` reads `reasoning_tokens`. -/
structure CompletionTokensDetails where
  reasoning_tokens : Option Nat
deriving DecidableEq, Repr

/-- `Usage` from `chat_completions.rs`. -/
structure Usage where
  prompt_tokens : Nat
  completion_tokens : Nat
  total_tokens : Nat
  prompt_tokens_details : Option PromptTokensDetails
  completion_tokens_details : Option CompletionTokensDetails
deriving DecidableEq, Repr

/-- `impl From<Usage> for TokenUsage` from `client.rs`. -/
def TokenUsage.fromUsage (usage : Usage) : TokenUsage :=
  { tokens_in := usage.prompt_tokens,
    tokens_in_cached := usage.prompt_tokens_details.bind fun d => d.cached_tokens,
    tokens_out := usage.completion_tokens,
    tokens_reasoning := usage.completion_tokens_details.bind fun d => d.reasoning_tokens }

/-- `GenericMessage` from `message.rs`.  As for `AssistantMessage`, the
`reasoning` field is read by `client.rs` but absent from the bundled
`message.rs`; modelled from the spec's `Completion = { text, reasoning?, usage }`. -/
structure GenericMessage where
  role : Role
  content : Option String
  name : Option String
  refusal : Option String
  tool_calls : Option JsonValue
  tool_call_id : Option String
  reasoning : Option String
deriving DecidableEq, Repr

/-- `impl TryFrom<GenericMessage> for AssistantMessage` from `message.rs`,
with the `message::Error` already mapped into `Error::InvalidMessage` as the
`?` operator does in `request_completion`. -/
def AssistantMessage.try_from (m : GenericMessage) : Except Error AssistantMessage :=
  if m.role = .assistant then
    .ok { content := m.content, name := m.name, refusal := m.refusal,
          tool_calls := m.tool_calls, reasoning := m.reasoning }
  else
    .error (.invalidMessage .assistant m.role)

/-- `CompletionChoice` from `chat_completions.rs`. -/
structure CompletionChoice where
  finish_reason : String
  index : Nat
  message : GenericMessage
  logprobs : Option JsonValue
deriving DecidableEq, Repr

/-- `ChatCompletions` from `chat_completions.rs`. -/
structure ChatCompletions where
  id : String
  choices : List CompletionChoice
  created : Nat
  model : String
  service_tier : Option String
  system_fingerprint : Option String
  object : String
  usage : Usage
deriving DecidableEq, Repr

/-- `Completion` from `client.rs`. -/
structure Completion where
  response : String
  reasoning : Option String
  token_usage : TokenUsage
deriving DecidableEq, Repr

/-- `ChatClient::request_completion`: the HTTP round trip
`client.chat_completions(..)` is an external collaborator, so its result is
taken as the argument `apiResult` (an `Err` there is propagated by `?`).
`completion.choices.pop()` takes the last choice.  Returns the client's
context after the call together with the returned value. -/
def ChatClient.request_completion (context : Context) (request : String)
    (apiResult : Except Error ChatCompletions) : Context × Except Error Completion :=
  match apiResult with
  | .error e => (context, .error e)
  | .ok completion =>
    match completion.choices.getLast? with
    | none => (context, .error .noChoices)
    | some choice =>
      match AssistantMessage.try_from choice.message with
      | .error e => (context, .error e)
      | .ok assistant_message =>
        match assistant_message.content with
        | none =>
          (context, .error (match assistant_message.refusal with
            | some refusal => .refusal refusal
            | none => .noContent))
        | some response =>
          (context.push request response,
            .ok { response := response, reasoning := assistant_message.reasoning,
                  token_usage := TokenUsage.fromUsage completion.usage })

/-! ## Helper definitions -/

/-- The user/assistant message pair of every retained turn, oldest to newest,
written the way §4.1 of the spec words it (one explicit pair per turn). -/
def turnMessagePairs : List (String × String) → List Message
  | [] => []
  | (request, response) :: rest =>
    Message.user (UserMessage.new request) ::
      Message.assistant (AssistantMessage.new response) :: turnMessagePairs rest

/-- States reachable only at or after a flush point: once the machine is in
one of these, no later event can write the context. -/
def State.flushDone : State → Bool
  | .waitingForDone | .waitingForEndOfStream | .terminated => true
  | _ => false

/-! ## Helper lemmas and theorems -/

lemma flatMap_eq_turnMessagePairs (l : List (String × String)) :
    (l.flatMap fun transaction =>
      [Message.user (UserMessage.new transaction.1),
       Message.assistant (AssistantMessage.new transaction.2)]) = turnMessagePairs l := by
  induction l with
  | nil => rfl
  | cons hd tl ih =>
    cases hd
    simp [turnMessagePairs, ih]

lemma turnMessagePairs_length (l : List (String × String)) :
    (turnMessagePairs l).length = 2 * l.length := by
  induction l with
  | nil => rfl
  | cons hd tl ih =>
    cases hd
    simp [turnMessagePairs, ih]
    omega

/-- C6: `with_request` is a pure read (in the source it takes `&self`; here it
is a function of the context), and its output is exactly, in order, the
optional system message, then the user/assistant pair of every retained turn
oldest to newest, then the new user message; its length is
`2 * len(turns) + (1 if system_message else 0) + 1`. -/
theorem with_request_shape_and_length (ctx : Context) (request : String) :
    ctx.with_request request =
      (match ctx.system_message with
        | some s => [Message.system (SystemMessage.new s)]
        | none => []) ++
        turnMessagePairs ctx.conversation ++ [Message.user (UserMessage.new request)]
    ∧ (ctx.with_request request).length =
        2 * ctx.conversation.length + (if ctx.system_message.isSome then 1 else 0) + 1 := by
  constructor
  · unfold Context.with_request
    rw [flatMap_eq_turnMessagePairs]
    cases ctx.system_message <;> simp [Option.toList]
  · unfold Context.with_request
    rw [flatMap_eq_turnMessagePairs]  -- length of the turn block is 2 * turns
    cases ctx.system_message <;>
      simp [Option.toList, turnMessagePairs_length]

/-- C1 counterexample: with `max_history_tokens = 2` and a tokenizer counting
characters, the just-pushed turn `("aaa", "bbb")` costs 6 > 2 tokens, yet
after the push it is NOT retained alone: the trimming also drops the newest
turn and leaves the conversation empty. -/
theorem push_over_max_not_retained_cex :
    String.length "aaa" + String.length "bbb" > 2
    ∧ (Context.push
        { system_message := none, conversation := [],
          tokenizer := some String.length, min_history_tokens := none,
          max_history_tokens := some 2 } "aaa" "bbb").conversation = [] := by
  constructor
  · decide
  · decide

/-- C1 amended: with `max_tokens` configured, a turn whose token cost (added
to the system-message tokens) exceeds `max_tokens` is NOT retained: the
`take_while` bound discards it together with every older turn, so the push
leaves the conversation empty and the retained total never transiently
exceeds `max_tokens`. -/
theorem push_over_max_discards_all (sys : Option String)
    (convo : List (String × String)) (numTokens : String → Nat) (mn : Option Nat)
    (X : Nat) (request response : String)
    (h : (sys.map numTokens).getD 0 + (numTokens request + numTokens response) > X) :
    (Context.push
      { system_message := sys, conversation := convo,
        tokenizer := some numTokens, min_history_tokens := mn,
        max_history_tokens := some X } request response).conversation = [] := by
  unfold Context.push Context.keep_recent
  simp only [List.reverse_append, List.reverse_cons, List.reverse_nil, List.nil_append,
    List.cons_append, List.map_cons, accumulateCosts, mapWhileBelowMin]
  rcases hb : belowMin mn ((sys.map numTokens).getD 0) with _ | _
  · simp [List.length_append, List.drop_eq_nil_of_le]
  · simp only [if_pos rfl, ite_true]
    have hw : withinMax (some X)
        ((sys.map numTokens).getD 0 + (numTokens request + numTokens response)) = false := by
      simp [withinMax]
      omega
    simp [List.takeWhile, hw, List.length_append, List.drop_eq_nil_of_le]

/-- Witness for the amended C1 theorem at a concrete input. -/
theorem push_over_max_discards_all_witness :
    (((none : Option String)).map String.length).getD 0 +
        (String.length "aaa" + String.length "bbb") > 2
    ∧ (Context.push
        { system_message := none, conversation := [("q", "a")],
          tokenizer := some String.length, min_history_tokens := none,
          max_history_tokens := some 2 } "aaa" "bbb").conversation = [] :=
  ⟨by decide,
    push_over_max_discards_all none [("q", "a")] String.length none 2 "aaa" "bbb" (by decide)⟩

/-- C5: failing input for the claim that with `min_tokens` set (and no max)
the newest turn is always retained.  With `min_history_tokens = 1` and a
2-token system message, the running total before the newest turn is already
`2 ≥ 1`, so `map_while` keeps nothing: the push drops even the just-pushed
turn, contradicting the doc comment on `ChatClientConfig::min_history_tokens`
("at least the latest round of messages is always kept (unless
`max_history_tokens` kicks in)"). -/
theorem min_only_push_drops_newest_turn :
    (Context.push
      { system_message := some "ab", conversation := [],
        tokenizer := some String.length, min_history_tokens := some 1,
        max_history_tokens := none } "a" "b").conversation = [] := by
  decide


lemma finalize_fst (st ns : State) : (st.finalize ns).1 = ns := by
  cases st <;> simp [State.finalize]

lemma finalize_snd_of_flushDone (st : State) (h : st.flushDone = true) (ns : State) :
    (st.finalize ns).2 = none := by
  cases st <;> simp_all [State.flushDone, State.finalize]

lemma finalize_snd_cases (st ns : State) :
    (st.finalize ns).2 = none ∨ ∃ p, p ≠ "" ∧ (st.finalize ns).2 = some p := by
  cases st
  case receivingContent p =>
    by_cases hp : p.isEmpty
    · left
      simp [State.finalize, hp]
    · right
      refine ⟨p, fun he => ?_, by simp [State.finalize, hp]⟩
      subst he
      exact hp rfl
  all_goals
    left
    simp [State.finalize]

lemma pollLoop_flushDone_preserves (request : String) (evs : List RawEvent) :
    ∀ (c : Context) (st : State), st.flushDone = true →
      (pollLoop request c st evs).1 = c
      ∧ ((pollLoop request c st evs).2.1).flushDone = true := by
  induction evs with
  | nil =>
    intro c st h
    simp [pollLoop, flushInto, finalize_snd_of_flushDone st h, finalize_fst, State.flushDone]
  | cons ev rest ih =>
    intro c st h
    match ev with
    | .err =>
      simp [pollLoop, flushInto, finalize_snd_of_flushDone st h, finalize_fst, State.flushDone]
    | .ok .done =>
      simp only [pollLoop, finalize_snd_of_flushDone st h, finalize_fst, flushInto]
      exact ih c .waitingForEndOfStream rfl
    | .ok .ignored =>
      simpa [pollLoop] using ih c st h
    | .ok (.decodeError e) =>
      simp [pollLoop, flushInto, finalize_snd_of_flushDone st h, finalize_fst, State.flushDone]
    | .ok (.delta d) =>
      cases st <;> simp [State.flushDone] at h <;> cases d <;>
        simp [pollLoop, State.flushDone]

lemma pollLoop_extends_at_most_once (request : String) (evs : List RawEvent) :
    ∀ (c : Context) (st : State),
      (pollLoop request c st evs).1 = c
      ∨ ∃ r, r ≠ "" ∧ (pollLoop request c st evs).1 = c.push request r
          ∧ ((pollLoop request c st evs).2.1).flushDone = true := by
  induction evs with
  | nil =>
    intro c st
    rcases finalize_snd_cases st .terminated with h | ⟨p, hp, h⟩
    · left
      simp [pollLoop, h, flushInto]
    · right
      exact ⟨p, hp, by simp [pollLoop, h, flushInto],
        by simp [pollLoop, finalize_fst, State.flushDone]⟩
  | cons ev rest ih =>
    intro c st
    match ev with
    | .err =>
      rcases finalize_snd_cases st .terminated with h | ⟨p, hp, h⟩
      · left
        simp [pollLoop, h, flushInto]
      · right
        exact ⟨p, hp, by simp [pollLoop, h, flushInto],
          by simp [pollLoop, finalize_fst, State.flushDone]⟩
    | .ok .done =>
      rcases finalize_snd_cases st .waitingForEndOfStream with h | ⟨p, hp, h⟩
      · simpa only [pollLoop, h, finalize_fst, flushInto] using ih c .waitingForEndOfStream
      · right
        have hpres := pollLoop_flushDone_preserves request rest
          (c.push request p) .waitingForEndOfStream rfl
        refine ⟨p, hp, ?_, ?_⟩
        · simpa only [pollLoop, h, finalize_fst, flushInto] using hpres.1
        · simpa only [pollLoop, h, finalize_fst, flushInto] using hpres.2
    | .ok .ignored =>
      simpa only [pollLoop] using ih c st
    | .ok (.decodeError e) =>
      rcases finalize_snd_cases st .terminated with h | ⟨p, hp, h⟩
      · left
        simp [pollLoop, h, flushInto]
      · right
        exact ⟨p, hp, by simp [pollLoop, h, flushInto],
          by simp [pollLoop, finalize_fst, State.flushDone]⟩
    | .ok (.delta d) =>
      cases st
      case receivingContent partialResponse =>
        cases d
        case reasoning s =>
          rcases finalize_snd_cases (State.receivingContent partialResponse) .terminated
            with h | ⟨p, hp, h⟩
          · left
            simp [pollLoop, h, flushInto]
          · right
            exact ⟨p, hp, by simp [pollLoop, h, flushInto],
              by simp [pollLoop, finalize_fst, State.flushDone]⟩
        case content s =>
          left
          simp [pollLoop]
        case usage u =>
          rcases finalize_snd_cases (State.receivingContent partialResponse) .waitingForDone
            with h | ⟨p, hp, h⟩
          · left
            simp [pollLoop, h, flushInto]
          · right
            exact ⟨p, hp, by simp [pollLoop, h, flushInto],
              by simp [pollLoop, finalize_fst, State.flushDone]⟩
      all_goals cases d <;> (left; simp [pollLoop])

lemma poll_next_request (s : CompletionStream) : (s.poll_next).1.request = s.request := by
  cases hs : s.state <;> simp [CompletionStream.poll_next, hs]

lemma poll_next_flushDone (s : CompletionStream) (h : s.state.flushDone = true) :
    (s.poll_next).1.context = s.context ∧ ((s.poll_next).1.state).flushDone = true := by
  cases hs : s.state
  case terminated => exact ⟨by simp [CompletionStream.poll_next, hs], by simp [CompletionStream.poll_next, hs, State.flushDone]⟩
  all_goals {
    rw [hs] at h
    have hp := pollLoop_flushDone_preserves s.request s.events s.context _ h
    constructor
    · simpa [CompletionStream.poll_next, hs] using hp.1
    · simpa [CompletionStream.poll_next, hs] using hp.2
  }

lemma poll_next_extends_at_most_once (s : CompletionStream) :
    (s.poll_next).1.context = s.context
    ∨ ∃ r, r ≠ "" ∧ (s.poll_next).1.context = s.context.push s.request r
        ∧ ((s.poll_next).1.state).flushDone = true := by
  cases hs : s.state
  case terminated =>
    left
    simp [CompletionStream.poll_next, hs]
  all_goals {
    rcases pollLoop_extends_at_most_once s.request s.events s.context _
      with h | ⟨r, hr, h1, h2⟩
    · left
      simpa [CompletionStream.poll_next, hs] using h
    · right
      exact ⟨r, hr, by simpa [CompletionStream.poll_next, hs] using h1,
        by simpa [CompletionStream.poll_next, hs] using h2⟩
  }

lemma drive_flushDone_context (fuel : Nat) :
    ∀ (s : CompletionStream), s.state.flushDone = true →
      (CompletionStream.drive fuel s).1.context = s.context := by
  induction fuel with
  | zero =>
    intro s h
    rfl
  | succ n ih =>
    intro s h
    have hp := poll_next_flushDone s h
    cases hr : (s.poll_next).2
    case endOfStream =>
      simpa [CompletionStream.drive, hr] using hp.1
    all_goals {
      rw [show (CompletionStream.drive (n + 1) s).1
          = (CompletionStream.drive n (s.poll_next).1).1 by
        simp [CompletionStream.drive, hr]]
      rw [ih (s.poll_next).1 hp.2]
      exact hp.1
    }

lemma drive_extends_at_most_once (fuel : Nat) :
    ∀ (s : CompletionStream),
      (CompletionStream.drive fuel s).1.context = s.context
      ∨ ∃ r, r ≠ "" ∧ (CompletionStream.drive fuel s).1.context
          = s.context.push s.request r := by
  induction fuel with
  | zero =>
    intro s
    left
    rfl
  | succ n ih =>
    intro s
    cases hr : (s.poll_next).2
    case endOfStream =>
      rcases poll_next_extends_at_most_once s with h | ⟨r, hne, h, _⟩
      · left
        simpa [CompletionStream.drive, hr] using h
      · right
        exact ⟨r, hne, by simpa [CompletionStream.drive, hr] using h⟩
    all_goals {
      rw [show (CompletionStream.drive (n + 1) s).1
          = (CompletionStream.drive n (s.poll_next).1).1 by
        simp [CompletionStream.drive, hr]]
      rcases poll_next_extends_at_most_once s with h | ⟨r, hne, h, hfd⟩
      · rcases ih (s.poll_next).1 with h2 | ⟨r, hne, h2⟩
        · left
          rw [h2, h]
        · right
          exact ⟨r, hne, by rw [h2, h, poll_next_request]⟩
      · right
        refine ⟨r, hne, ?_⟩
        rw [drive_flushDone_context n (s.poll_next).1 hfd, h]
    }

/-- C2: driving the whole stream over any finite sequence of raw events,
starting as `CompletionStream::new` does in `WaitingForData`, mutates the
conversation context at most once — the final context is either the initial
one or the initial one extended by a single `push` of the request and some
response, no matter which combination of sentinel, usage record, decode or
protocol error, transport error, or natural end completes the response. -/
theorem stream_extends_context_at_most_once (c : Context) (evs : List RawEvent)
    (request : String) :
    ((CompletionStream.new c evs request).run).1.context = c
    ∨ ∃ r, ((CompletionStream.new c evs request).run).1.context = c.push request r := by
  rcases drive_extends_at_most_once ((CompletionStream.new c evs request).events.length + 1)
      (CompletionStream.new c evs request) with h | ⟨r, _, h⟩
  · left
    exact h
  · right
    exact ⟨r, h⟩

/-- C10: on every stream completion or termination path, a new turn is pushed
into the context only when the accumulated response text is non-empty — the
final context is either untouched (the flush was skipped, in particular when
only `Content("")` or no content at all arrived) or extended once with a
non-empty response. -/
theorem stream_pushes_only_nonempty_response (c : Context) (evs : List RawEvent)
    (request : String) :
    ((CompletionStream.new c evs request).run).1.context = c
    ∨ ∃ r, r ≠ ""
        ∧ ((CompletionStream.new c evs request).run).1.context = c.push request r :=
  drive_extends_at_most_once ((CompletionStream.new c evs request).events.length + 1)
    (CompletionStream.new c evs request)

/-- C4: on events `[Content("Hi"), Content(" there"), Usage(u), "[DONE]"]`
followed by natural end of the underlying sequence, the stream (over a context
without window limits) yields exactly `Ok(Content("Hi"))`,
`Ok(Content(" there"))`, `Ok(Usage(u))` in that order and then a clean
end-of-sequence with no error item and no item for the sentinel; the context
gains exactly one new turn `(request, "Hi there")`. -/
theorem stream_content_usage_done_scenario (sys : Option String)
    (convo : List (String × String)) (mn mx : Option Nat) (request : String)
    (u : TokenUsage) :
    (CompletionStream.new ⟨sys, convo, none, mn, mx⟩
        [.ok (.delta (.content "Hi")), .ok (.delta (.content " there")),
         .ok (.delta (.usage u)), .ok .done] request).run
      = ({ context := ⟨sys, convo ++ [(request, "Hi there")], none, mn, mx⟩,
           events := [], state := .terminated, request := request },
         [.item (.content "Hi"), .item (.content " there"), .item (.usage u),
          .endOfStream]) :=
  rfl

/-- C3: on events `[Content("x"), Reasoning("y")]` the stream (over a context
without window limits) yields `Ok(Content("x"))`, then the protocol-violation
error "reasoning after content" as the terminal item; the state becomes
`Terminated` and the buffered partial response `"x"` is flushed first, so the
context gains exactly one new turn `(request, "x")`. -/
theorem stream_reasoning_after_content_scenario (sys : Option String)
    (convo : List (String × String)) (mn mx : Option Nat) (request : String) :
    (CompletionStream.new ⟨sys, convo, none, mn, mx⟩
        [.ok (.delta (.content "x")), .ok (.delta (.reasoning "y"))] request).run
      = ({ context := ⟨sys, convo ++ [(request, "x")], none, mn, mx⟩,
           events := [], state := .terminated, request := request },
         [.item (.content "x"),
          .errItem (.unexpectedStreamEvent "reasoning after content"),
          .endOfStream]) :=
  rfl

/-- C7: a delta decoded while the machine is in `WaitingForDone` yields the
matching protocol-violation error ("reasoning after usage" / "content after
usage" / "duplicate usage"), leaves the context untouched and transitions to
the absorbing `Terminated` state, from which every further poll returns
end-of-sequence. -/
theorem waiting_for_done_delta_is_error (c : Context) (evs : List RawEvent)
    (request : String) (d : Delta) :
    CompletionStream.poll_next ⟨c, .ok (.delta d) :: evs, .waitingForDone, request⟩
      = (⟨c, evs, .terminated, request⟩,
         .errItem (.unexpectedStreamEvent (match d with
           | .reasoning _ => "reasoning after usage"
           | .content _ => "content after usage"
           | .usage _ => "duplicate usage")))
    ∧ ∀ (c' : Context) (evs' : List RawEvent) (req' : String),
        CompletionStream.poll_next ⟨c', evs', .terminated, req'⟩
          = (⟨c', evs', .terminated, req'⟩, .endOfStream) := by
  constructor
  · cases d <;> rfl
  · intro c' evs' req'
    rfl

/-- C9: after the `"[DONE]"` sentinel (state `WaitingForEndOfStream`), a
subsequently decoded delta is discarded — no item is yielded and the stream
terminates cleanly with end-of-sequence — while a subsequently received
transport error is still propagated to the caller as a terminal error item.
The context is untouched in both cases. -/
theorem after_done_delta_discarded_error_propagated (c : Context)
    (evs : List RawEvent) (request : String) (d : Delta) :
    CompletionStream.poll_next ⟨c, .ok (.delta d) :: evs, .waitingForEndOfStream, request⟩
      = (⟨c, evs, .terminated, request⟩, .endOfStream)
    ∧ CompletionStream.poll_next ⟨c, .err :: evs, .waitingForEndOfStream, request⟩
      = (⟨c, evs, .terminated, request⟩, .errItem .streamError) := by
  constructor
  · cases d <;> rfl
  · rfl

/-- C8: `request_completion` (the non-streaming path): an empty `choices`
list yields the `NoChoices` error; a last choice whose assistant message has
no content yields `Refusal` when a refusal message is present and `NoContent`
otherwise; every error outcome (including a propagated transport error and a
role mismatch) leaves the context unchanged and is returned as a typed result
without retry; only on success is the context extended, with exactly the pair
`(request, response)`. -/
theorem request_completion_cases (ctx : Context) (request : String) :
    (∀ (id : String) (created : Nat) (model : String) (st sf : Option String)
        (obj : String) (usage : Usage),
      ChatClient.request_completion ctx request
          (.ok ⟨id, [], created, model, st, sf, obj, usage⟩)
        = (ctx, .error .noChoices))
    ∧ (∀ (id : String) (choicesInit : List CompletionChoice) (fr : String)
        (idx : Nat) (nm : Option String) (tc : Option JsonValue)
        (tci : Option String) (rsn : Option String) (lp : Option JsonValue)
        (created : Nat) (model : String) (st sf : Option String) (obj : String)
        (usage : Usage) (refusal : String),
      ChatClient.request_completion ctx request
          (.ok ⟨id,
            choicesInit ++
              [⟨fr, idx, ⟨.assistant, none, nm, some refusal, tc, tci, rsn⟩, lp⟩],
            created, model, st, sf, obj, usage⟩)
        = (ctx, .error (.refusal refusal)))
    ∧ (∀ (id : String) (choicesInit : List CompletionChoice) (fr : String)
        (idx : Nat) (nm : Option String) (tc : Option JsonValue)
        (tci : Option String) (rsn : Option String) (lp : Option JsonValue)
        (created : Nat) (model : String) (st sf : Option String) (obj : String)
        (usage : Usage),
      ChatClient.request_completion ctx request
          (.ok ⟨id,
            choicesInit ++ [⟨fr, idx, ⟨.assistant, none, nm, none, tc, tci, rsn⟩, lp⟩],
            created, model, st, sf, obj, usage⟩)
        = (ctx, .error .noContent))
    ∧ (∀ (id : String) (choicesInit : List CompletionChoice) (fr : String)
        (idx : Nat) (nm : Option String) (rf : Option String) (tc : Option JsonValue)
        (tci : Option String) (rsn : Option String) (lp : Option JsonValue)
        (created : Nat) (model : String) (st sf : Option String) (obj : String)
        (usage : Usage) (response : String),
      ChatClient.request_completion ctx request
          (.ok ⟨id,
            choicesInit ++
              [⟨fr, idx, ⟨.assistant, some response, nm, rf, tc, tci, rsn⟩, lp⟩],
            created, model, st, sf, obj, usage⟩)
        = (ctx.push request response,
           .ok { response := response, reasoning := rsn,
                 token_usage := TokenUsage.fromUsage usage }))
    ∧ (∀ (apiResult : Except Error ChatCompletions),
        (ChatClient.request_completion ctx request apiResult).1 = ctx
        ∨ ∃ completionValue,
            (ChatClient.request_completion ctx request apiResult).2 = .ok completionValue
            ∧ (ChatClient.request_completion ctx request apiResult).1
              = ctx.push request completionValue.response) := by
  refine ⟨?_, ?_, ?_, ?_, ?_⟩
  · intro id created model st sf obj usage
    rfl
  · intro id choicesInit fr idx nm tc tci rsn lp created model st sf obj usage refusal
    simp [ChatClient.request_completion, List.getLast?_concat, AssistantMessage.try_from]
  · intro id choicesInit fr idx nm tc tci rsn lp created model st sf obj usage
    simp [ChatClient.request_completion, List.getLast?_concat, AssistantMessage.try_from]
  · intro id choicesInit fr idx nm rf tc tci rsn lp created model st sf obj usage response
    simp [ChatClient.request_completion, List.getLast?_concat, AssistantMessage.try_from]
  · intro apiResult
    rcases apiResult with e | completion
    · left
      rfl
    · unfold ChatClient.request_completion
      cases hl : completion.choices.getLast? with
      | none =>
        left
        simp [hl]
      | some choice =>
        simp only [hl]
        by_cases hr : choice.message.role = Role.assistant
        · simp only [AssistantMessage.try_from, hr, if_pos rfl, reduceIte]
          cases hc : choice.message.content with
          | none =>
            left
            simp
          | some response =>
            right
            simp [hc]
        · simp [AssistantMessage.try_from, hr]

end Jutella
